import Mathlib

/-!
Verification of the RSS news pipeline (p12_RSS_news).

A shallow embedding of the three core modules:
  * `src/rss_fetcher/fetcher.py`   — feed ingestion with dedup ledger,
    recency filter and ledger purge;
  * `src/ai_processor/processor.py` — per-article LLM protocol (summary,
    feature decision, deep-dive extraction) and batch processing;
  * `src/page_generator/generator.py` — per-day snapshot record store.

External effects are abstracted as oracles: the LLM is a function from
prompt and token budget to an optional reply (`none` models a failed
call, mirroring `_call_llm` returning `None`); feed fetching is a
function from URL to an optional entry list (`none` models a fetch or
parse exception); wall-clock instants are integers (seconds), so the
ISO-8601 string comparisons of the Python code (which agree with
chronological order for the fixed `+08:00` offset format produced by
`datetime.isoformat`) become integer comparisons.  Python dictionaries
are association lists with first-match lookup and replace-or-append
update, exactly the observable behaviour of `dict` for the operations
the code performs.
-/

namespace RSSNews

/-- A Python value stored in an article dictionary: the pipeline only ever
stores strings and booleans. -/
inductive PyVal where
  | vStr : String → PyVal
  | vBool : Bool → PyVal
deriving DecidableEq, Repr

/-- A Python `dict` with string keys, as an association list. -/
abbrev Dict := List (String × PyVal)

/-- `d.get(k)` / `d[k]`: first matching binding. -/
def dictGet : Dict → String → Option PyVal
  | [], _ => none
  | p :: rest, k => if p.1 = k then some p.2 else dictGet rest k

/-- `d[k] = v`: replace the existing binding in place, else append. -/
def dictSet : Dict → String → PyVal → Dict
  | [], k, v => [(k, v)]
  | p :: rest, k, v => if p.1 = k then (k, v) :: rest else p :: dictSet rest k v

/-- `d.get(k, dflt)` for a string-valued field. -/
def getStr (d : Dict) (k : String) (dflt : String) : String :=
  match dictGet d k with
  | some (.vStr s) => s
  | _ => dflt

/-- Python truthiness of `d.get(k)`: `None` and `""` and `False` are falsy. -/
def pyTruthy : Option PyVal → Bool
  | none => false
  | some (.vStr s) => s ≠ ""
  | some (.vBool b) => b

/-! ## Character and string helpers (Python `str` semantics)

Lean 4.14 strings are lists of unicode code points, matching Python's
`len` / slicing semantics for the operations used by the code. -/

/-- The characters matched by `\s` in a (non-unicode-exotic) reply, and
stripped by Python's default `str.strip()`. -/
def isPySpace (c : Char) : Bool :=
  c = ' ' || c = '\t' || c = '\n' || c = '\r' ||
  c = Char.ofNat 11 || c = Char.ofNat 12

/-- Drop trailing characters satisfying `p`. -/
def dropTrailWhile (p : Char → Bool) (l : List Char) : List Char :=
  (l.reverse.dropWhile p).reverse

/-- Python `s.strip()` on a character list. -/
def stripWsList (l : List Char) : List Char :=
  dropTrailWhile isPySpace (l.dropWhile isPySpace)

/-- Python `s.strip()`. -/
def pyStripWs (s : String) : String := ⟨stripWsList s.data⟩

/-- Python `s.strip(chars)`: remove leading and trailing characters that
belong to `cs`. -/
def pyStripSet (cs : List Char) (s : String) : String :=
  ⟨dropTrailWhile (fun c => cs.contains c) (s.data.dropWhile (fun c => cs.contains c))⟩

/-- Python `s[:n]`: the first `n` code points. -/
def strTake (s : String) (n : Nat) : String := ⟨s.data.take n⟩

/-- Does `pat` occur at the head of `l`? -/
def startsWithChars : List Char → List Char → Bool
  | [], _ => true
  | _ :: _, [] => false
  | p :: ps, c :: cs => p = c && startsWithChars ps cs

/-- Does `pat` occur anywhere in `l` (Python `pat in s`)? -/
def containsChars (pat : List Char) : List Char → Bool
  | [] => startsWithChars pat []
  | c :: cs => startsWithChars pat (c :: cs) || containsChars pat cs

/-- Python `pat in s`. -/
def containsStr (s pat : String) : Bool := containsChars pat.data s.data

/-- The suffix following the first occurrence of (non-empty) `pat`,
or `none` if `pat` does not occur. -/
def afterOcc (pat : List Char) : List Char → Option (List Char)
  | [] => if startsWithChars pat [] then some [] else none
  | c :: cs =>
    if startsWithChars pat (c :: cs) then some (List.drop pat.length (c :: cs))
    else afterOcc pat cs

/-! ## RSS fetcher (`src/rss_fetcher/fetcher.py`)

`RSSFetcher.fetch_source` iterates the parsed feed entries, skipping
entries without a link, entries whose link is already in the seen-articles
ledger and entries published more than 24 hours before now, and otherwise
emits a normalized article and immediately records the link in the ledger.
`fetch_all` folds this over all sources, then sorts by publish time
descending (Python's stable sort).  `_cleanup_old_seen` filters the ledger
down to entries strictly newer than `now - days`. -/

/-- A parsed feed entry.  `published` is the entry's publish instant after
the fetcher's normalization (naive values localized to the configured
zone); `none` models a missing/unparsable `published_parsed`.  The three
body fields model `entry.content[0].value` (when the `content` list is
present and non-empty), `entry.summary` and `entry.description`;
`none` models an absent attribute. -/
structure Entry where
  link : String
  published : Option Int
  title : Option String
  contentVal : Option String
  summaryVal : Option String
  descriptionVal : Option String
deriving DecidableEq, Repr

/-- A normalized article emitted by the fetcher. -/
structure Article where
  url : String
  title : String
  source : String
  published : Int
  content : String
deriving DecidableEq, Repr

/-- The seen-articles ledger: url → first-seen instant. -/
abbrev Ledger := List (String × Int)

/-- `url in self.seen_articles`. -/
def ledgerMem : Ledger → String → Bool
  | [], _ => false
  | p :: rest, u => if p.1 = u then true else ledgerMem rest u

/-- `self.seen_articles[url] = t`. -/
def ledgerSet : Ledger → String → Int → Ledger
  | [], u, t => [(u, t)]
  | p :: rest, u, t => if p.1 = u then (u, t) :: rest else p :: ledgerSet rest u t

/-- Best-available body text: structured content field, then summary,
then description, else empty (lines 109–115 of `fetcher.py`). -/
def bestContent (e : Entry) : String :=
  match e.contentVal with
  | some c => c
  | none =>
    match e.summaryVal with
    | some s => s
    | none => e.descriptionVal.getD ""

/-- 24 hours, in seconds. -/
def daySecs : Int := 86400

/-- The article record built for an admitted entry (lines 117–123). -/
def mkArticle (name : String) (e : Entry) (pub : Int) : Article :=
  { url := e.link
    title := e.title.getD "无标题"
    source := name
    published := pub
    content := bestContent e }

/-- The entry loop of `fetch_source` (lines 82–126): returns the emitted
articles in feed order together with the updated ledger. -/
def processEntries (now : Int) (name : String) : List Entry → Ledger → List Article × Ledger
  | [], seen => ([], seen)
  | e :: rest, seen =>
    if e.link = "" then processEntries now name rest seen
    else if ledgerMem seen e.link then processEntries now name rest seen
    else
      let pub := e.published.getD now
      if pub < now - daySecs then processEntries now name rest seen
      else
        let res := processEntries now name rest (ledgerSet seen e.link now)
        (mkArticle name e pub :: res.1, res.2)

/-- `fetch_source`: `parsed = none` models the `except` path (feed
unreachable or the parse raising), which returns the empty accumulator and
leaves the ledger untouched. -/
def fetch_source (now : Int) (name : String) (parsed : Option (List Entry)) (seen : Ledger) :
    List Article × Ledger :=
  match parsed with
  | none => ([], seen)
  | some entries => processEntries now name entries seen

/-- The source loop of `fetch_all` (lines 144–146), threading the ledger. -/
def fetchSources (now : Int) (feedOf : String → Option (List Entry)) :
    List (String × String) → Ledger → List Article × Ledger
  | [], seen => ([], seen)
  | s :: rest, seen =>
    let r := fetch_source now s.1 (feedOf s.2) seen
    let r2 := fetchSources now feedOf rest r.2
    (r.1 ++ r2.1, r2.2)

/-- Stable insertion of an article into a publish-time-descending list:
the inserted element goes before the first strictly older element, after
equal ones — the unique stable descending order, which is what Python's
`list.sort(key=..., reverse=True)` produces. -/
def insertDesc (a : Article) : List Article → List Article
  | [] => [a]
  | b :: rest => if a.published ≤ b.published then b :: insertDesc a rest else a :: b :: rest

/-- `all_articles.sort(key=lambda x: x['published'], reverse=True)`. -/
def sortByPublished : List Article → List Article
  | [] => []
  | a :: rest => insertDesc a (sortByPublished rest)

/-- `fetch_all`: fold the sources, then sort newest-first. -/
def fetch_all (now : Int) (feedOf : String → Option (List Entry))
    (sources : List (String × String)) (seen : Ledger) : List Article × Ledger :=
  let r := fetchSources now feedOf sources seen
  (sortByPublished r.1, r.2)

/-- `_cleanup_old_seen` (lines 54–61): keep exactly the entries whose
timestamp is strictly greater than `now - days` (the code compares
ISO strings with `>`; for the fixed-offset format this is the instant
order). -/
def cleanup_old_seen (now : Int) (seen : Ledger) (days : Int) : Ledger :=
  seen.filter (fun p => decide (now - days * daySecs < p.2))

/-! ## AI processor (`src/ai_processor/processor.py`)

The model is an oracle from prompt and `max_tokens` to an optional raw
reply; `none` models the `except` branch of `_call_llm` (network error,
timeout, provider error).  `_call_llm` strips the raw reply. -/

/-- The LLM oracle: prompt and token budget to an optional raw reply. -/
abbrev LLM := String → Nat → Option String

/-- `_call_llm`: the API reply is `.strip()`-ped; a raised call yields
`None`. -/
def call_llm (llm : LLM) (prompt : String) (maxTokens : Nat) : Option String :=
  (llm prompt maxTokens).map pyStripWs

/-- The fixed fallback summary string (lines 115 and 276). -/
def failMsg : String := "AI处理失败，请直接查看原文"

/-- The characters stripped from a summary reply by
`result.strip('"\x27"')`: ASCII double and single quote. -/
def quoteChars : List Char := [Char.ofNat 34, Char.ofNat 39]

/-- The module-level `SELECTION_CRITERIA` prompt constant. -/
def SELECTION_CRITERIA : String :=
  "\n请判断一篇文章是否值得进入\"今日精选\"。依据以下三个条件，需同时满足至少两个：\n\n1. **有新东西**：发布了新模型、新工具、新方法、新研究成果，而非旧闻换皮\n2. **跟实践相关**：读完后能改变读者做某件事的方式（新技巧、新工具用法、新工作流）\n3. **有深度**：原文信息量足够丰富，值得花3分钟以上阅读，而非一段话就能说完的简短公告\n\n请先给出判断（是/否），然后简要说明理由。\n"

/-- `article.get('content', '')[:n]`. -/
def contentTake (a : Dict) (n : Nat) : String := strTake (getStr a "content" "") n

/-- The prompt built by `generate_summary` (content capped at 3000). -/
def summaryPrompt (a : Dict) : String :=
  "请用一句话概括这篇文章的核心内容，不超过30字。\n\n标题：" ++ getStr a "title" ""
    ++ "\n内容：" ++ contentTake a 3000 ++ "\n\n速览："

/-- `generate_summary` (lines 87–115): falls back to `failMsg` when the
call fails or the cleaned reply is empty; strips surrounding quotes; a
cleaned reply longer than 50 characters is cut to 50 with an appended
ellipsis. -/
def generate_summary (llm : LLM) (a : Dict) : String :=
  match call_llm llm (summaryPrompt a) 100 with
  | none => failMsg
  | some r =>
    if r = "" then failMsg
    else
      let r1 := pyStripSet quoteChars r
      let r2 := if r1.length > 50 then strTake r1 50 ++ "..." else r1
      if r2 = "" then failMsg else r2

/-- The prompt built by `is_featured` (content capped at 4000). -/
def featuredPrompt (a : Dict) (summary : String) : String :=
  SELECTION_CRITERIA ++ "\n\n标题：" ++ getStr a "title" "" ++ "\n速览：" ++ summary
    ++ "\n内容：" ++ contentTake a 4000
    ++ "\n\n请按以下格式回答：\n判断：是/否\n理由：（简要说明）\n\n回答："

/-- The suffix after the first occurrence of `label` followed by a colon
(full-width `：` or ASCII `:`), modelling the scan of
`re.search(label[：:]..., s)` for the leading literal part; `none` when
no such occurrence exists. -/
def afterLabelColon (label : List Char) : List Char → Option (List Char)
  | [] => none
  | c :: cs =>
    if startsWithChars label (c :: cs) then
      match List.drop label.length (c :: cs) with
      | d :: rest =>
        if d = '：' || d = ':' then some rest else afterLabelColon label cs
      | [] => afterLabelColon label cs
    else afterLabelColon label cs

/-- `re.search(r'理由[：:]\s*(.+)', result)` followed by
`.group(1).strip()`, with `""` when there is no match (line 152–153):
after the colon, `\s*` greedily eats whitespace and the greedy `(.+)`
(no DOTALL: `.` excludes the newline) captures to the end of that line.
When everything after the colon is whitespace the captured text strips
to `""`, which coincides with the no-match result. -/
def extractReason (s : String) : String :=
  match afterLabelColon "理由".data s.data with
  | none => ""
  | some t =>
    match t.dropWhile isPySpace with
    | [] => ""
    | c :: rest => String.mk (stripWsList (c :: rest.takeWhile (fun x => x ≠ '\n')))

/-- `is_featured` (lines 117–155): on a failed or empty reply, not
featured with reason `AI处理失败`; otherwise featured iff the reply
contains `判断：是` or `判断: 是`, with the reason extracted after
`理由`. -/
def is_featured (llm : LLM) (a : Dict) (summary : String) : Bool × String :=
  match call_llm llm (featuredPrompt a summary) 200 with
  | none => (false, "AI处理失败")
  | some result =>
    if result = "" then (false, "AI处理失败")
    else
      (containsStr result "判断：是" || containsStr result "判断: 是",
       extractReason result)

/-- The prompt built by `generate_featured_content` (content capped at
6000). -/
def deepPrompt (a : Dict) : String :=
  "请深度分析这篇AI领域文章，生成以下内容：\n\n标题：" ++ getStr a "title" ""
    ++ "\n内容：" ++ contentTake a 6000
    ++ "\n\n请按以下格式输出：\n\n【核心内容】\n（2-3句话概括这篇文章讲了什么）\n\n【你可以学到】\n（1-2句话说明这篇文章对读者的价值）\n\n【行动建议】\n（1句话说明读完后可以做什么，如\"可以试试XX工具\"、\"值得关注XX趋势\"）\n\n请确保内容准确反映原文，不要添加原文没有的信息："

/-- `re.search(rf'【L】\s*\n?(.+?)(?=【|$)', s, re.DOTALL)` followed by
`.group(1).strip()`; `none` models no match.  After `【L】`, the engine
skips the whitespace run; the lazy `(.+?)` then captures at least one
character up to (but excluding) the next `【`, or to the end.  When only
whitespace follows, backtracking makes the capture the last whitespace
character, which strips to `""`; when nothing at all follows, the match
fails (and no later occurrence can exist). -/
def extractBracket (label : String) (s : String) : Option String :=
  match afterOcc ("【" ++ label ++ "】").data s.data with
  | none => none
  | some [] => none
  | some t =>
    match t.dropWhile isPySpace with
    | [] => some ""
    | c :: rest => some (String.mk (stripWsList (c :: rest.takeWhile (fun x => x ≠ '【'))))

/-- The capture of the lazy `(.+?)(?=\n\n|$)` tail (DOTALL) after its
first character: stops right before the first blank line. -/
def takeUntilBlank : List Char → List Char
  | '\n' :: '\n' :: _ => []
  | c :: rest => c :: takeUntilBlank rest
  | [] => []

/-- `re.search(rf'{L}[：:]\s*(.+?)(?=\n\n|$)', s, re.DOTALL)` followed by
`.group(1).strip()`; the fallback "simple format" pattern of the section
parser (lines 213–216). -/
def extractColon (label : String) (s : String) : Option String :=
  match afterLabelColon label.data s.data with
  | none => none
  | some [] => none
  | some t =>
    match t.dropWhile isPySpace with
    | [] => some ""
    | c :: rest => some (String.mk (stripWsList (c :: takeUntilBlank rest)))

/-- The three deep-dive fields. -/
structure FeaturedContent where
  core_content : String
  what_you_learn : String
  action_advice : String
deriving DecidableEq, Repr

/-- One iteration of the section loop (lines 206–216): bracketed label
first, then the simple `label：` format, else the field keeps its
initial `""`. -/
def parseSection (label : String) (reply : String) : String :=
  match extractBracket label reply with
  | some v => v
  | none =>
    match extractColon label reply with
    | some v => v
    | none => ""

/-- The parsed deep-dive reply. -/
def parseFeatured (reply : String) : FeaturedContent :=
  { core_content := parseSection "核心内容" reply
    what_you_learn := parseSection "你可以学到" reply
    action_advice := parseSection "行动建议" reply }

/-- `generate_featured_content` (lines 157–218): `None` exactly when the
call fails or returns an empty reply; otherwise the parsed sections,
empty strings for sections that match neither pattern. -/
def generate_featured_content (llm : LLM) (a : Dict) : Option FeaturedContent :=
  match call_llm llm (deepPrompt a) 800 with
  | none => none
  | some r => if r = "" then none else some (parseFeatured r)

/-- `process_article` (lines 220–249): works on a copy of the input
article, adds `summary`, `is_featured`, `featured_reason`, and, when
featured, either merges the parsed deep-dive fields (`result.update`)
or — only when `generate_featured_content` returned `None` — resets
`is_featured` to `False`. -/
def process_article (llm : LLM) (article : Dict) : Dict :=
  let summary := generate_summary llm article
  let result := dictSet article "summary" (.vStr summary)
  let fr := is_featured llm article summary
  let result := dictSet result "is_featured" (.vBool fr.1)
  let result := dictSet result "featured_reason" (.vStr fr.2)
  if fr.1 then
    match generate_featured_content llm article with
    | some fc =>
      dictSet (dictSet (dictSet result "core_content" (.vStr fc.core_content))
          "what_you_learn" (.vStr fc.what_you_learn))
        "action_advice" (.vStr fc.action_advice)
    | none => dictSet result "is_featured" (.vBool false)
  else result

/-- The degraded record built in the `except` branch of the batch loop
(lines 275–277): a copy of the input with the fixed failure summary and
`is_featured = False`. -/
def failedArticle (article : Dict) : Dict :=
  dictSet (dictSet article "summary" (.vStr failMsg)) "is_featured" (.vBool false)

/-- The batch loop of `process_articles` (lines 267–278).  `raises`
models "an unexpected exception is raised while processing this
article" (the `except Exception` branch). -/
def processLoop (llm : LLM) (raises : Dict → Bool) : List Dict → List Dict
  | [] => []
  | a :: rest =>
    (if raises a then failedArticle a else process_article llm a) :: processLoop llm raises rest

/-- `process_articles` (lines 251–283): truncate to `max_articles`, then
process sequentially, retaining failed articles in place. -/
def process_articles (llm : LLM) (raises : Dict → Bool) (articles : List Dict)
    (max_articles : Nat) : List Dict :=
  processLoop llm raises (articles.take max_articles)

/-! ## Page generator snapshot store (`src/page_generator/generator.py`)

The per-day JSON data files are a mapping from date string to snapshot
record; `_save_data` writes the whole record for a date (`json.dump` of
the full dict), `_load_data` reads it back. -/

/-- The per-day snapshot record written by `generate` (lines 722–727). -/
structure SnapData where
  date : String
  timestamp : String
  articles : List Dict
  featured_count : Nat
deriving DecidableEq, Repr

/-- The collection of per-day data files, date string → record. -/
abbrev DataStore := List (String × SnapData)

/-- `_save_data` (lines 43–51): whole-record write for one date. -/
def save_data : DataStore → String → SnapData → DataStore
  | [], d, v => [(d, v)]
  | p :: rest, d, v => if p.1 = d then (d, v) :: rest else p :: save_data rest d v

/-- `_load_data` (lines 53–59): the record for a date, if present. -/
def load_data : DataStore → String → Option SnapData
  | [], _ => none
  | p :: rest, d => if p.1 = d then some p.2 else load_data rest d

/-- `featured_count`: `sum(1 for a in articles if a.get('is_featured'))`
(Python truthiness of the field). -/
def countFeatured (articles : List Dict) : Nat :=
  articles.countP (fun a => pyTruthy (dictGet a "is_featured"))

/-- The data-construction and persistence step of `generate`
(lines 708–730): build the full per-day record and overwrite that
date's file. -/
def generate (store : DataStore) (articles : List Dict) (dateStr : String)
    (iso : String) : DataStore :=
  save_data store dateStr
    { date := dateStr
      timestamp := iso
      articles := articles
      featured_count := countFeatured articles }

/-! ## Concrete instances used by the evaluation theorems and witnesses -/

/-- A reply that makes the feature decision "yes" but contains none of
the deep-dive section labels. -/
def unparsableReply : String := "判断：是"

/-- A model returning `unparsableReply` to every call. -/
def unparsableOracle : LLM := fun _ _ => some unparsableReply

/-- A concrete input article. -/
def sampleArticle : Dict := [("title", PyVal.vStr "t"), ("content", PyVal.vStr "c")]

/-- A reply one quote followed by 51 `a`s: 52 characters long. -/
def longReply : String := "\"" ++ String.mk (List.replicate 51 'a')

/-- A model returning `longReply` to every call. -/
def longOracle : LLM := fun _ _ => some longReply

/-- A concrete fresh entry. -/
def wEntry : Entry :=
  { link := "https://a/1", published := some 0, title := some "X",
    contentVal := none, summaryVal := none, descriptionVal := none }

/-- A concrete one-entry feed. -/
def wFeed : String → Option (List Entry) := fun _ => some [wEntry]

/-- A concrete stale entry. -/
def wOldEntry : Entry :=
  { link := "https://a/old", published := some (-100000000), title := none,
    contentVal := none, summaryVal := none, descriptionVal := none }

/-- A feed map whose source `bad` is unreachable. -/
def wBadFeed : String → Option (List Entry) :=
  fun u => if u = "bad" then none else some [wEntry]

/-! ## Basic lemmas about the dictionary and store operations -/

theorem dictGet_dictSet_self (d : Dict) (k : String) (v : PyVal) :
    dictGet (dictSet d k v) k = some v := by
  induction d with
  | nil => simp [dictGet, dictSet]
  | cons p rest ih =>
    by_cases h : p.1 = k
    · simp [dictSet, h, dictGet]
    · simp [dictSet, h, dictGet, ih]

theorem dictGet_dictSet_ne (d : Dict) (k k2 : String) (v : PyVal) (h : k2 ≠ k) :
    dictGet (dictSet d k v) k2 = dictGet d k2 := by
  induction d with
  | nil => simp [dictGet, dictSet, Ne.symm h]
  | cons p rest ih =>
    by_cases hp : p.1 = k
    · simp [dictSet, hp, dictGet, Ne.symm h, ih]
    · by_cases hp2 : p.1 = k2
      · simp [dictSet, hp, dictGet, hp2, h]
      · simp [dictSet, hp, dictGet, hp2, ih]

theorem load_save_self (st : DataStore) (d : String) (v : SnapData) :
    load_data (save_data st d v) d = some v := by
  induction st with
  | nil => simp [load_data, save_data]
  | cons p rest ih =>
    by_cases h : p.1 = d
    · simp [save_data, h, load_data]
    · simp [save_data, h, load_data, ih]

/-! ## C9 — snapshot overwrite -/

/-- C9: generating a snapshot for the same date twice keeps only the
second article list: `generate` writes the whole per-day record
`{date, timestamp, articles, featured_count}` in one overwrite
(last-write-wins, no merge), with `featured_count` the tally of articles
whose `is_featured` field is truthy. -/
theorem snapshot_overwrite (store : DataStore) (as1 as2 : List Dict)
    (d ts1 ts2 : String) :
    load_data (generate (generate store as1 d ts1) as2 d ts2) d
      = some { date := d, timestamp := ts2, articles := as2,
               featured_count := countFeatured as2 } := by
  unfold generate
  exact load_save_self _ _ _

/-! ## C5 — ledger purge -/

/-- C5 counterexample: an entry whose timestamp is exactly `now - days`
(not strictly older than the cutoff) is nevertheless removed by the
purge, because the code keeps only entries with `date > cutoff`. -/
theorem purge_boundary_example :
    cleanup_old_seen 0 [("u", -604800)] 7 = []
    ∧ ¬ ((-604800 : Int) < 0 - 7 * daySecs) := by
  constructor
  · decide
  · decide

/-- C5 amended: `purge` is a pure filter — the surviving ledger is a
sublist of the original (every survivor keeps its key and timestamp and
their relative order), and a binding survives iff it was present and its
timestamp is strictly newer than `now - retention_days` (entries at or
before the cutoff, including the exact boundary, are removed). -/
theorem purge_exact (now : Int) (seen : Ledger) (days : Int) :
    List.Sublist (cleanup_old_seen now seen days) seen
    ∧ ∀ u t, ((u, t) ∈ cleanup_old_seen now seen days ↔
        ((u, t) ∈ seen ∧ now - days * daySecs < t)) := by
  constructor
  · exact List.filter_sublist _
  · intro u t
    simp [cleanup_old_seen, List.mem_filter]

/-! ## C2 — batch count invariant -/

theorem processLoop_eq_map (llm : LLM) (raises : Dict → Bool) (l : List Dict) :
    processLoop llm raises l
      = l.map (fun a => if raises a then failedArticle a else process_article llm a) := by
  induction l with
  | nil => rfl
  | cons a rest ih => simp [processLoop, ih]

/-- C2: `process_articles` returns exactly `min(len(input), max_articles)`
records — the processed (or, on a raised exception, degraded) form of each
admitted input article, in input order; a degraded article carries the
fixed failure summary and `is_featured = False` instead of being
dropped. -/
theorem batch_count (llm : LLM) (raises : Dict → Bool) (articles : List Dict)
    (max_articles : Nat) :
    (process_articles llm raises articles max_articles).length
        = min articles.length max_articles
    ∧ process_articles llm raises articles max_articles
        = (articles.take max_articles).map
            (fun a => if raises a then failedArticle a else process_article llm a)
    ∧ ∀ a, dictGet (failedArticle a) "summary" = some (.vStr failMsg)
        ∧ dictGet (failedArticle a) "is_featured" = some (.vBool false) := by
  refine ⟨?_, ?_, ?_⟩
  · unfold process_articles
    rw [processLoop_eq_map, List.length_map, List.length_take, Nat.min_comm]
  · exact processLoop_eq_map llm raises _
  · intro a
    constructor
    · unfold failedArticle
      rw [dictGet_dictSet_ne _ _ _ _ (by decide), dictGet_dictSet_self]
    · unfold failedArticle
      rw [dictGet_dictSet_self]

/-! ## C10 — frame condition of article processing -/

/-- C10: `process_article` (and the degraded-article constructor used by
the batch failure path) operates on a copy and only ever writes the six
enrichment keys, so every other field of the input article — in
particular `url`, `title`, `source`, `published`, `content` — is carried
into the returned record with its value unchanged (and the input itself,
being passed by value, is never mutated). -/
theorem process_article_frame (llm : LLM) (a : Dict) (k : String)
    (h : k ∉ (["summary", "is_featured", "featured_reason", "core_content",
               "what_you_learn", "action_advice"] : List String)) :
    dictGet (process_article llm a) k = dictGet a k
    ∧ dictGet (failedArticle a) k = dictGet a k := by
  simp only [List.mem_cons, List.not_mem_nil, or_false, not_or] at h
  obtain ⟨h1, h2, h3, h4, h5, h6⟩ := h
  constructor
  · simp only [process_article]
    cases hf : (is_featured llm a (generate_summary llm a)).1 with
    | false =>
      rw [if_neg (by decide : ¬ (false = true))]
      rw [dictGet_dictSet_ne _ _ _ _ h3, dictGet_dictSet_ne _ _ _ _ h2,
          dictGet_dictSet_ne _ _ _ _ h1]
    | true =>
      rw [if_pos rfl]
      cases hg : generate_featured_content llm a with
      | some fc =>
        rw [dictGet_dictSet_ne _ _ _ _ h6, dictGet_dictSet_ne _ _ _ _ h5,
            dictGet_dictSet_ne _ _ _ _ h4, dictGet_dictSet_ne _ _ _ _ h3,
            dictGet_dictSet_ne _ _ _ _ h2, dictGet_dictSet_ne _ _ _ _ h1]
      | none =>
        rw [dictGet_dictSet_ne _ _ _ _ h2, dictGet_dictSet_ne _ _ _ _ h3,
            dictGet_dictSet_ne _ _ _ _ h2, dictGet_dictSet_ne _ _ _ _ h1]
  · unfold failedArticle
    rw [dictGet_dictSet_ne _ _ _ _ h2, dictGet_dictSet_ne _ _ _ _ h1]

/-- C10 witness: the `url` field of a concrete article survives both
processing paths unchanged. -/
theorem process_article_frame_witness :
    dictGet (process_article (fun _ _ => none) [("url", PyVal.vStr "https://a/1")]) "url"
        = dictGet [("url", PyVal.vStr "https://a/1")] "url"
    ∧ dictGet (failedArticle [("url", PyVal.vStr "https://a/1")]) "url"
        = dictGet [("url", PyVal.vStr "https://a/1")] "url" :=
  process_article_frame (fun _ _ => none) [("url", PyVal.vStr "https://a/1")] "url" (by decide)

/-! ## C7 — failure defaults of the per-article chain -/

/-- C7: when the model call fails at the summary step and the subsequent
feature-decision call fails as well, the processed article carries the
fixed fallback summary, `is_featured = False`, and the failure rationale
`AI处理失败` ("processing failed"); the deep-dive step is never
reached. -/
theorem summary_fail_defaults (llm : LLM) (a : Dict)
    (h1 : llm (summaryPrompt a) 100 = none)
    (h2 : llm (featuredPrompt a failMsg) 200 = none) :
    dictGet (process_article llm a) "summary" = some (.vStr failMsg)
    ∧ dictGet (process_article llm a) "is_featured" = some (.vBool false)
    ∧ dictGet (process_article llm a) "featured_reason" = some (.vStr "AI处理失败") := by
  have hs : generate_summary llm a = failMsg := by
    unfold generate_summary call_llm
    rw [h1]
    rfl
  have hf : is_featured llm a failMsg = (false, "AI处理失败") := by
    unfold is_featured call_llm
    rw [h2]
    rfl
  have key : process_article llm a
      = dictSet (dictSet (dictSet a "summary" (PyVal.vStr failMsg)) "is_featured"
          (PyVal.vBool false)) "featured_reason" (PyVal.vStr "AI处理失败") := by
    simp only [process_article, hs, hf]
    rw [if_neg (by decide : ¬ (false = true))]
  refine ⟨?_, ?_, ?_⟩
  · rw [key, dictGet_dictSet_ne _ _ _ _ (by decide : ("summary" : String) ≠ "featured_reason"),
        dictGet_dictSet_ne _ _ _ _ (by decide : ("summary" : String) ≠ "is_featured"),
        dictGet_dictSet_self]
  · rw [key, dictGet_dictSet_ne _ _ _ _ (by decide : ("is_featured" : String) ≠ "featured_reason"),
        dictGet_dictSet_self]
  · rw [key, dictGet_dictSet_self]

/-- C7 witness: a model that fails every call. -/
theorem summary_fail_defaults_witness :
    dictGet (process_article (fun _ _ => none) []) "summary" = some (.vStr failMsg)
    ∧ dictGet (process_article (fun _ _ => none) []) "is_featured" = some (.vBool false)
    ∧ dictGet (process_article (fun _ _ => none) []) "featured_reason"
        = some (.vStr "AI处理失败") :=
  summary_fail_defaults (fun _ _ => none) [] rfl rfl

/-! ## C1 — the deep-dive degrade rule is not enforced for unparsable
replies

`generate_featured_content` returns `None` only when the model call
fails or the reply is empty; a non-empty reply in which *no* labeled
section matches is parsed into three empty strings and returned as a
(truthy) dictionary, so `process_article` keeps `is_featured = True`
while `core_content`, `what_you_learn` and `action_advice` are all
empty.  The evaluation below exhibits this on a concrete run. -/

/-- C1: at the failing input, the deep-dive reply matches no labeled
section (it parses to three empty fields), yet the processed article
still has `is_featured = true` with all three deep-dive fields empty —
the code degrades only on a failed call, contradicting the claimed
invariant that a featured article has non-empty deep-dive fields and
that an unparsable reply degrades the article. -/
theorem featured_unparsable_not_degraded :
    parseFeatured unparsableReply = ⟨"", "", ""⟩
    ∧ dictGet (process_article unparsableOracle sampleArticle) "is_featured"
        = some (.vBool true)
    ∧ dictGet (process_article unparsableOracle sampleArticle) "core_content"
        = some (.vStr "")
    ∧ dictGet (process_article unparsableOracle sampleArticle) "what_you_learn"
        = some (.vStr "")
    ∧ dictGet (process_article unparsableOracle sampleArticle) "action_advice"
        = some (.vStr "") := by
  decide

/-! ## C8 — summary truncation contract -/

/-- C8 counterexample: for this non-empty 52-character reply the
returned summary is **not** the reply truncated to the cap with the
ellipsis appended — `generate_summary` first strips surrounding quote
characters, so the truncation applies to the stripped reply. -/
theorem summary_truncation_quote_example :
    longReply ≠ "" ∧ longReply.length > 50
    ∧ generate_summary longOracle [] = String.mk (List.replicate 50 'a') ++ "..."
    ∧ generate_summary longOracle [] ≠ strTake longReply 50 ++ "..." := by
  decide

/-- C8 amended: the reply is first cleaned — whitespace-stripped by the
call wrapper, then stripped of surrounding ASCII quote characters; if
the cleaned reply is non-empty, a cleaned reply longer than 50
characters is returned truncated to exactly its first 50 characters
with an appended `...` (total length exactly 53), and a cleaned reply
within the cap is returned unchanged. -/
theorem strLen_append (s t : String) : (s ++ t).length = s.length + t.length := by
  show (s.data ++ t.data).length = s.data.length + t.data.length
  exact List.length_append s.data t.data

theorem summary_truncation_contract (llm : LLM) (a : Dict) (r : String)
    (h1 : llm (summaryPrompt a) 100 = some r)
    (h2 : pyStripSet quoteChars (pyStripWs r) ≠ "") :
    generate_summary llm a
      = (if (pyStripSet quoteChars (pyStripWs r)).length > 50
         then strTake (pyStripSet quoteChars (pyStripWs r)) 50 ++ "..."
         else pyStripSet quoteChars (pyStripWs r))
    ∧ ((pyStripSet quoteChars (pyStripWs r)).length > 50 →
        (generate_summary llm a).length = 53) := by
  have hst : pyStripWs r ≠ "" := by
    intro he
    apply h2
    rw [he]
    rfl
  have hcall : call_llm llm (summaryPrompt a) 100 = some (pyStripWs r) := by
    unfold call_llm
    rw [h1]
    rfl
  set s := pyStripSet quoteChars (pyStripWs r) with hsdef
  have htlen : ∀ u : String, s.length > 50 → u = strTake s 50 ++ "..." → u.length = 53 := by
    intro u hlen hu
    rw [hu, strLen_append]
    have ht : (strTake s 50).length = 50 := by
      show (s.data.take 50).length = 50
      rw [List.length_take]
      have hh : s.length = s.data.length := rfl
      omega
    rw [ht]
    rfl
  have hmain : generate_summary llm a
      = (if s.length > 50 then strTake s 50 ++ "..." else s) := by
    unfold generate_summary
    simp only [hcall]
    rw [if_neg hst]
    by_cases hlen : s.length > 50
    · have hne : strTake s 50 ++ "..." ≠ "" := by
        intro he
        have hl := htlen _ hlen rfl
        rw [he] at hl
        exact absurd hl (by decide)
      rw [if_pos hlen]
      exact if_neg hne
    · rw [if_neg hlen]
      exact if_neg h2
  refine ⟨hmain, ?_⟩
  intro hlen
  rw [hmain, if_pos hlen]
  exact htlen _ hlen rfl

/-- C8 witness for the amended contract: a short reply is returned
unchanged. -/
theorem summary_truncation_contract_witness :
    generate_summary (fun _ _ => some "abc") []
      = (if (pyStripSet quoteChars (pyStripWs "abc")).length > 50
         then strTake (pyStripSet quoteChars (pyStripWs "abc")) 50 ++ "..."
         else pyStripSet quoteChars (pyStripWs "abc")) :=
  (summary_truncation_contract (fun _ _ => some "abc") [] "abc" rfl (by decide)).1

/-! ## Ledger and fetcher lemmas -/

theorem ledgerMem_set_self (seen : Ledger) (u : String) (t : Int) :
    ledgerMem (ledgerSet seen u t) u = true := by
  induction seen with
  | nil => simp [ledgerSet, ledgerMem]
  | cons p rest ih =>
    by_cases h : p.1 = u
    · simp [ledgerSet, h, ledgerMem]
    · simp [ledgerSet, h, ledgerMem, ih]

theorem ledgerMem_set_mono (seen : Ledger) (url : String) (t : Int) (u : String) :
    ledgerMem seen u = true → ledgerMem (ledgerSet seen url t) u = true := by
  induction seen with
  | nil => intro h; simp [ledgerMem] at h
  | cons p rest ih =>
    intro h
    simp only [ledgerMem] at h
    by_cases hp : p.1 = url
    · by_cases hu : url = u
      · simp [ledgerSet, hp, ledgerMem, hu]
      · have hpu : ¬ p.1 = u := by rw [hp]; exact hu
        have hr : ledgerMem rest u = true := by simpa [hpu] using h
        simp [ledgerSet, hp, ledgerMem, hu, hr]
    · have hset : ledgerSet (p :: rest) url t = p :: ledgerSet rest url t := by
        simp [ledgerSet, hp]
      by_cases hpu : p.1 = u
      · rw [hset]
        simp [ledgerMem, hpu]
      · have hr : ledgerMem rest u = true := by simpa [hpu] using h
        rw [hset]
        simp [ledgerMem, hpu, ih hr]

theorem processEntries_cons_skipLink {now : Int} {name : String} {e : Entry}
    {rest : List Entry} {seen : Ledger} (h : e.link = "") :
    processEntries now name (e :: rest) seen = processEntries now name rest seen := by
  simp [processEntries, h]

theorem processEntries_cons_skipSeen {now : Int} {name : String} {e : Entry}
    {rest : List Entry} {seen : Ledger} (h1 : ¬ e.link = "")
    (h2 : ledgerMem seen e.link = true) :
    processEntries now name (e :: rest) seen = processEntries now name rest seen := by
  simp [processEntries, h1, h2]

theorem processEntries_cons_skipOld {now : Int} {name : String} {e : Entry}
    {rest : List Entry} {seen : Ledger} (h1 : ¬ e.link = "")
    (h2 : ¬ ledgerMem seen e.link = true)
    (h3 : e.published.getD now < now - daySecs) :
    processEntries now name (e :: rest) seen = processEntries now name rest seen := by
  simp [processEntries, h1, h2, h3]

theorem processEntries_cons_emit {now : Int} {name : String} {e : Entry}
    {rest : List Entry} {seen : Ledger} (h1 : ¬ e.link = "")
    (h2 : ¬ ledgerMem seen e.link = true)
    (h3 : ¬ e.published.getD now < now - daySecs) :
    processEntries now name (e :: rest) seen
      = (mkArticle name e (e.published.getD now)
            :: (processEntries now name rest (ledgerSet seen e.link now)).1,
         (processEntries now name rest (ledgerSet seen e.link now)).2) := by
  simp [processEntries, h1, h2, h3]

theorem processEntries_mono (now : Int) (name : String) (es : List Entry) :
    ∀ (seen : Ledger) (u : String), ledgerMem seen u = true →
      ledgerMem (processEntries now name es seen).2 u = true := by
  induction es with
  | nil => intro seen u h; simpa [processEntries] using h
  | cons e rest ih =>
    intro seen u h
    by_cases h1 : e.link = ""
    · rw [processEntries_cons_skipLink h1]
      exact ih seen u h
    · by_cases h2 : ledgerMem seen e.link = true
      · rw [processEntries_cons_skipSeen h1 h2]
        exact ih seen u h
      · by_cases h3 : e.published.getD now < now - daySecs
        · rw [processEntries_cons_skipOld h1 h2 h3]
          exact ih seen u h
        · rw [processEntries_cons_emit h1 h2 h3]
          exact ih _ u (ledgerMem_set_mono seen e.link now u h)

theorem processEntries_emit_mem (now : Int) (name : String) (es : List Entry) :
    ∀ (seen : Ledger) (a : Article), a ∈ (processEntries now name es seen).1 →
      ledgerMem (processEntries now name es seen).2 a.url = true := by
  induction es with
  | nil => intro seen a ha; simp [processEntries] at ha
  | cons e rest ih =>
    intro seen a ha
    by_cases h1 : e.link = ""
    · rw [processEntries_cons_skipLink h1] at ha ⊢
      exact ih seen a ha
    · by_cases h2 : ledgerMem seen e.link = true
      · rw [processEntries_cons_skipSeen h1 h2] at ha ⊢
        exact ih seen a ha
      · by_cases h3 : e.published.getD now < now - daySecs
        · rw [processEntries_cons_skipOld h1 h2 h3] at ha ⊢
          exact ih seen a ha
        · rw [processEntries_cons_emit h1 h2 h3] at ha ⊢
          rcases List.mem_cons.mp ha with rfl | hrest
          · exact processEntries_mono now name rest _ _
              (ledgerMem_set_self seen e.link now)
          · exact ih _ a hrest

theorem processEntries_covers (now : Int) (name : String) (es : List Entry) :
    ∀ (seen : Ledger), ∀ e ∈ es,
      e.link = "" ∨ ledgerMem (processEntries now name es seen).2 e.link = true
        ∨ ∃ p, e.published = some p ∧ p < now - daySecs := by
  induction es with
  | nil => intro seen e he; simp at he
  | cons e0 rest ih =>
    intro seen e he
    rcases List.mem_cons.mp he with rfl | hrest
    · by_cases h1 : e.link = ""
      · exact Or.inl h1
      · by_cases h2 : ledgerMem seen e.link = true
        · refine Or.inr (Or.inl ?_)
          rw [processEntries_cons_skipSeen h1 h2]
          exact processEntries_mono now name rest seen e.link h2
        · by_cases h3 : e.published.getD now < now - daySecs
          · refine Or.inr (Or.inr ?_)
            cases hpub : e.published with
            | none =>
              exfalso
              rw [hpub] at h3
              simp only [Option.getD, daySecs] at h3
              omega
            | some p =>
              refine ⟨p, rfl, ?_⟩
              rw [hpub] at h3
              exact h3
          · refine Or.inr (Or.inl ?_)
            rw [processEntries_cons_emit h1 h2 h3]
            exact processEntries_mono now name rest _ _
              (ledgerMem_set_self seen e.link now)
    · by_cases h1 : e0.link = ""
      · rw [processEntries_cons_skipLink h1]
        exact ih seen e hrest
      · by_cases h2 : ledgerMem seen e0.link = true
        · rw [processEntries_cons_skipSeen h1 h2]
          exact ih seen e hrest
        · by_cases h3 : e0.published.getD now < now - daySecs
          · rw [processEntries_cons_skipOld h1 h2 h3]
            exact ih seen e hrest
          · rw [processEntries_cons_emit h1 h2 h3]
            exact ih _ e hrest

theorem processEntries_skip (now : Int) (name : String) (es : List Entry) :
    ∀ (seen : Ledger),
      (∀ e ∈ es, e.link = "" ∨ ledgerMem seen e.link = true
          ∨ ∃ p, e.published = some p ∧ p < now - daySecs) →
      processEntries now name es seen = ([], seen) := by
  induction es with
  | nil => intro seen _; rfl
  | cons e rest ih =>
    intro seen h
    have hrest : ∀ x ∈ rest, x.link = "" ∨ ledgerMem seen x.link = true
        ∨ ∃ p, x.published = some p ∧ p < now - daySecs :=
      fun x hx => h x (List.mem_cons_of_mem _ hx)
    have he := h e (List.mem_cons_self _ _)
    by_cases h1 : e.link = ""
    · rw [processEntries_cons_skipLink h1]
      exact ih seen hrest
    · by_cases h2 : ledgerMem seen e.link = true
      · rw [processEntries_cons_skipSeen h1 h2]
        exact ih seen hrest
      · rcases he with h1x | h2x | ⟨p, hp, hlt⟩
        · exact absurd h1x h1
        · exact absurd h2x h2
        · have h3 : e.published.getD now < now - daySecs := by
            rw [hp]
            exact hlt
          rw [processEntries_cons_skipOld h1 h2 h3]
          exact ih seen hrest

theorem fetch_source_mono (now : Int) (name : String) (parsed : Option (List Entry))
    (seen : Ledger) (u : String) (h : ledgerMem seen u = true) :
    ledgerMem (fetch_source now name parsed seen).2 u = true := by
  cases parsed with
  | none => exact h
  | some es => exact processEntries_mono now name es seen u h

theorem fetch_source_emit_mem (now : Int) (name : String) (parsed : Option (List Entry))
    (seen : Ledger) (a : Article) (ha : a ∈ (fetch_source now name parsed seen).1) :
    ledgerMem (fetch_source now name parsed seen).2 a.url = true := by
  cases parsed with
  | none => simp [fetch_source] at ha
  | some es => exact processEntries_emit_mem now name es seen a ha

theorem fetchSources_mono (now : Int) (feedOf : String → Option (List Entry))
    (srcs : List (String × String)) :
    ∀ (seen : Ledger) (u : String), ledgerMem seen u = true →
      ledgerMem (fetchSources now feedOf srcs seen).2 u = true := by
  induction srcs with
  | nil => intro seen u h; exact h
  | cons s rest ih =>
    intro seen u h
    exact ih _ u (fetch_source_mono now s.1 (feedOf s.2) seen u h)

theorem fetchSources_emit_mem (now : Int) (feedOf : String → Option (List Entry))
    (srcs : List (String × String)) :
    ∀ (seen : Ledger) (a : Article), a ∈ (fetchSources now feedOf srcs seen).1 →
      ledgerMem (fetchSources now feedOf srcs seen).2 a.url = true := by
  induction srcs with
  | nil => intro seen a ha; simp [fetchSources] at ha
  | cons s rest ih =>
    intro seen a ha
    have ha2 : a ∈ (fetch_source now s.1 (feedOf s.2) seen).1
        ++ (fetchSources now feedOf rest (fetch_source now s.1 (feedOf s.2) seen).2).1 := ha
    rcases List.mem_append.mp ha2 with hL | hR
    · exact fetchSources_mono now feedOf rest _ a.url
        (fetch_source_emit_mem now s.1 (feedOf s.2) seen a hL)
    · exact ih _ a hR

theorem fetchSources_covers (now : Int) (feedOf : String → Option (List Entry))
    (srcs : List (String × String)) :
    ∀ (seen : Ledger), ∀ s ∈ srcs, ∀ es, feedOf s.2 = some es → ∀ e ∈ es,
      e.link = "" ∨ ledgerMem (fetchSources now feedOf srcs seen).2 e.link = true
        ∨ ∃ p, e.published = some p ∧ p < now - daySecs := by
  induction srcs with
  | nil => intro seen s hs; simp at hs
  | cons s0 rest ih =>
    intro seen s hs es hes e he
    rcases List.mem_cons.mp hs with rfl | hrest
    · rcases processEntries_covers now s.1 es seen e he with h1 | h2 | h3
      · exact Or.inl h1
      · refine Or.inr (Or.inl ?_)
        have hfs : ledgerMem (fetch_source now s.1 (feedOf s.2) seen).2 e.link = true := by
          rw [hes]
          exact h2
        exact fetchSources_mono now feedOf rest _ e.link hfs
      · exact Or.inr (Or.inr h3)
    · exact ih _ s hrest es hes e he

theorem fetchSources_skip (now : Int) (feedOf : String → Option (List Entry))
    (srcs : List (String × String)) :
    ∀ (seen : Ledger),
      (∀ s ∈ srcs, ∀ es, feedOf s.2 = some es → ∀ e ∈ es,
          e.link = "" ∨ ledgerMem seen e.link = true
            ∨ ∃ p, e.published = some p ∧ p < now - daySecs) →
      fetchSources now feedOf srcs seen = ([], seen) := by
  induction srcs with
  | nil => intro seen _; rfl
  | cons s0 rest ih =>
    intro seen h
    have h0 : fetch_source now s0.1 (feedOf s0.2) seen = ([], seen) := by
      cases hf : feedOf s0.2 with
      | none => rfl
      | some es =>
        show processEntries now s0.1 es seen = ([], seen)
        exact processEntries_skip now s0.1 es seen (h s0 (List.mem_cons_self _ _) es hf)
    have hr : fetchSources now feedOf rest seen = ([], seen) :=
      ih seen (fun s hs => h s (List.mem_cons_of_mem _ hs))
    have h0a : (fetch_source now s0.1 (feedOf s0.2) seen).1 = [] := by
      rw [h0]
    have h0b : (fetch_source now s0.1 (feedOf s0.2) seen).2 = seen := by
      rw [h0]
    show ((fetch_source now s0.1 (feedOf s0.2) seen).1
        ++ (fetchSources now feedOf rest (fetch_source now s0.1 (feedOf s0.2) seen).2).1,
        (fetchSources now feedOf rest (fetch_source now s0.1 (feedOf s0.2) seen).2).2)
      = ([], seen)
    rw [h0a, h0b, hr]
    rfl

theorem mem_insertDesc (a b : Article) (l : List Article) :
    b ∈ insertDesc a l ↔ b = a ∨ b ∈ l := by
  induction l with
  | nil => simp [insertDesc]
  | cons c rest ih =>
    by_cases h : a.published ≤ c.published
    · simp only [insertDesc, h, if_true, List.mem_cons, ih]
      try tauto
    · simp only [insertDesc, h, if_false, List.mem_cons]
      try tauto

theorem mem_sortByPublished (b : Article) (l : List Article) :
    b ∈ sortByPublished l ↔ b ∈ l := by
  induction l with
  | nil => simp [sortByPublished]
  | cons a rest ih => simp [sortByPublished, mem_insertDesc, ih]

/-! ## C3 — dedup idempotence -/

/-- C3: every URL emitted by `fetch_all` is recorded in the resulting
seen-articles ledger, and a second run at a later time against the same
unchanged feeds, starting from the first run's ledger, emits zero
articles and leaves the ledger unchanged. -/
theorem dedup_idempotent (now1 now2 : Int) (feedOf : String → Option (List Entry))
    (sources : List (String × String)) (seen0 : Ledger) (hmono : now1 ≤ now2) :
    (∀ a ∈ (fetch_all now1 feedOf sources seen0).1,
        ledgerMem (fetch_all now1 feedOf sources seen0).2 a.url = true)
    ∧ fetch_all now2 feedOf sources (fetch_all now1 feedOf sources seen0).2
        = ([], (fetch_all now1 feedOf sources seen0).2) := by
  constructor
  · intro a ha
    have ha2 : a ∈ (fetchSources now1 feedOf sources seen0).1 :=
      (mem_sortByPublished a _).mp ha
    exact fetchSources_emit_mem now1 feedOf sources seen0 a ha2
  · have hskip : fetchSources now2 feedOf sources (fetchSources now1 feedOf sources seen0).2
        = ([], (fetchSources now1 feedOf sources seen0).2) := by
      apply fetchSources_skip
      intro s hs es hes e he
      rcases fetchSources_covers now1 feedOf sources seen0 s hs es hes e he
        with h | h | ⟨p, hp, hlt⟩
      · exact Or.inl h
      · exact Or.inr (Or.inl h)
      · refine Or.inr (Or.inr ⟨p, hp, ?_⟩)
        omega
    show (sortByPublished
          (fetchSources now2 feedOf sources (fetchSources now1 feedOf sources seen0).2).1,
          (fetchSources now2 feedOf sources (fetchSources now1 feedOf sources seen0).2).2)
        = ([], (fetchSources now1 feedOf sources seen0).2)
    rw [hskip]
    rfl

/-- C3 witness: one source, one fresh entry, two runs at times 0 and 10 —
the second run returns no articles and the unchanged ledger. -/
theorem dedup_idempotent_witness :
    fetch_all 10 wFeed [("s", "u")] (fetch_all 0 wFeed [("s", "u")] []).2
      = ([], (fetch_all 0 wFeed [("s", "u")] []).2) :=
  (dedup_idempotent 0 10 wFeed [("s", "u")] [] (by decide)).2

/-! ## C4 — recency filter -/

/-- C4: an entry whose (normalized) publish instant is more than 24 hours
before now is discarded by `fetch_source` — deleting it from the feed
changes neither the emitted articles nor the ledger, wherever it sits in
the feed and whatever the dedup state. -/
theorem recency_never_emitted (now : Int) (name : String) (pre post : List Entry)
    (e : Entry) (seen : Ledger) (p : Int)
    (hp : e.published = some p) (hold : p < now - daySecs) :
    fetch_source now name (some (pre ++ e :: post)) seen
      = fetch_source now name (some (pre ++ post)) seen := by
  show processEntries now name (pre ++ e :: post) seen
      = processEntries now name (pre ++ post) seen
  induction pre generalizing seen with
  | nil =>
    show processEntries now name (e :: post) seen = processEntries now name post seen
    by_cases h1 : e.link = ""
    · rw [processEntries_cons_skipLink h1]
    · by_cases h2 : ledgerMem seen e.link = true
      · rw [processEntries_cons_skipSeen h1 h2]
      · have h3 : e.published.getD now < now - daySecs := by
          rw [hp]
          exact hold
        rw [processEntries_cons_skipOld h1 h2 h3]
  | cons f pre ih =>
    show processEntries now name (f :: (pre ++ e :: post)) seen
        = processEntries now name (f :: (pre ++ post)) seen
    by_cases h1 : f.link = ""
    · rw [processEntries_cons_skipLink h1, processEntries_cons_skipLink h1, ih]
    · by_cases h2 : ledgerMem seen f.link = true
      · rw [processEntries_cons_skipSeen h1 h2, processEntries_cons_skipSeen h1 h2, ih]
      · by_cases h3 : f.published.getD now < now - daySecs
        · rw [processEntries_cons_skipOld h1 h2 h3, processEntries_cons_skipOld h1 h2 h3, ih]
        · rw [processEntries_cons_emit h1 h2 h3, processEntries_cons_emit h1 h2 h3, ih]

/-- C4 witness: the stale entry contributes nothing at time 0. -/
theorem recency_never_emitted_witness :
    fetch_source 0 "s" (some ([] ++ wOldEntry :: [])) []
      = fetch_source 0 "s" (some ([] ++ [])) [] :=
  recency_never_emitted 0 "s" [] [] wOldEntry [] (-100000000) rfl (by decide)

/-! ## C6 — source-level failure isolation -/

/-- C6: a source whose fetch/parse fails contributes zero articles and
leaves the ledger unchanged, and removing such a source from the batch
does not change the result of `fetch_all` — the other sources' articles
are still returned. -/
theorem source_isolated (now : Int) (feedOf : String → Option (List Entry))
    (name url : String) (pre post : List (String × String)) (seen : Ledger)
    (hbad : feedOf url = none) :
    fetch_source now name (feedOf url) seen = ([], seen)
    ∧ fetch_all now feedOf (pre ++ (name, url) :: post) seen
        = fetch_all now feedOf (pre ++ post) seen := by
  have h1 : ∀ (nm : String) (sn : Ledger), fetch_source now nm (feedOf url) sn = ([], sn) := by
    intro nm sn
    rw [hbad]
    rfl
  refine ⟨h1 name seen, ?_⟩
  have key : ∀ (pre2 : List (String × String)) (sn : Ledger),
      fetchSources now feedOf (pre2 ++ (name, url) :: post) sn
        = fetchSources now feedOf (pre2 ++ post) sn := by
    intro pre2
    induction pre2 with
    | nil =>
      intro sn
      have hexp : fetchSources now feedOf ((name, url) :: post) sn
          = ((fetch_source now name (feedOf url) sn).1
              ++ (fetchSources now feedOf post (fetch_source now name (feedOf url) sn).2).1,
             (fetchSources now feedOf post (fetch_source now name (feedOf url) sn).2).2) := rfl
      rw [List.nil_append, List.nil_append, hexp, h1 name sn]
      simp
    | cons s0 rest ih =>
      intro sn
      simp only [List.cons_append, fetchSources, List.append_eq]
      rw [ih]
  show (sortByPublished (fetchSources now feedOf (pre ++ (name, url) :: post) seen).1,
        (fetchSources now feedOf (pre ++ (name, url) :: post) seen).2)
      = (sortByPublished (fetchSources now feedOf (pre ++ post) seen).1,
        (fetchSources now feedOf (pre ++ post) seen).2)
  rw [key]

/-- C6 witness: the unreachable source leaves the batch result of the
other sources intact. -/
theorem source_isolated_witness :
    fetch_source 0 "B" (wBadFeed "bad") [] = ([], [])
    ∧ fetch_all 0 wBadFeed ([("s", "u")] ++ ("B", "bad") :: [("t", "v")]) []
        = fetch_all 0 wBadFeed ([("s", "u")] ++ [("t", "v")]) [] :=
  source_isolated 0 wBadFeed "B" "bad" [("s", "u")] [("t", "v")] [] (by decide)

end RSSNews
